import Mathlib

/-!
Verification of the mtgjson-sdk data-materialization core: a shallow
embedding of the cache manager (`src/cache.rs`), the view registrar
(`src/connection.rs`) and the booster simulator
(`src/booster/simulator.rs`), together with theorems settling the
behavioural claims about weighted sampling, error handling, registry
idempotence and the column-adaptation plan.

Modelling conventions:
* Rust `i64` weights become `Int`; counts become `Nat`.
* The thread-local RNG is modelled as an explicit roll function
  `Nat → Int → Int` giving, for each step, the value produced by
  `rng.gen_range(0..total)` for the given total.  Where a theorem needs
  the in-range guarantee of `gen_range` it carries it as a hypothesis.
* Filesystem and network effects are modelled by passing the outcome of
  each effectful stage (HTTP send result, file read result, JSON parse
  result) as an explicit argument, exactly in the order the source
  performs them.
* DuckDB query results are modelled as the lists of decoded rows the
  source extracts from them; the SQL text itself carries no logic beyond
  the key equalities visible in the WHERE clauses.
-/

namespace Mtgjson

/-- Error taxonomy of `src/error.rs`, restricted to the variants the
verified code paths construct. -/
inductive MtgjsonError where
  | NotFound (msg : String)
  | Http (status : Nat)
  | Decode (msg : String)
  | Io (msg : String)
deriving DecidableEq, Repr

/-! ## Cache manager (`src/cache.rs`) -/

/-- The JSON shapes `remote_version` distinguishes in the Meta.json body:
an unparsable body (where `resp.json()?` fails), or a parsed document
from which only the `data.version` and `meta.version` string paths are
read. -/
inductive MetaJson where
  | unparsable
  | parsed (dataVersion : Option String) (metaVersion : Option String)
deriving DecidableEq, Repr

/-- An HTTP response as far as `remote_version` inspects it: the status
code (through `error_for_status`) and the body. -/
structure HttpResponse where
  status : Nat
  body : MetaJson
deriving DecidableEq, Repr

/-- Outcome of `client.get(META_URL).send()`: a transport-level failure
or a response. -/
inductive SendResult where
  | transportError
  | ok (resp : HttpResponse)
deriving DecidableEq, Repr

/-- `reqwest::Response::error_for_status` fails exactly for client and
server error statuses (400..=599); the cached files are served plainly
so redirects are already resolved by the client. -/
def error_for_status_fails (status : Nat) : Bool :=
  400 ≤ status

/-- Embedding of `CacheManager::remote_version` (src/cache.rs:83-114).
`cached_remote` is the in-memory `self.remote_ver` memo, `offline` the
offline flag, `net` the outcome of the HTTP send.  A transport error is
swallowed into `Ok none`; an error status propagates through
`error_for_status()?` and an unparsable body through `resp.json()?`. -/
def remote_version (cached_remote : Option String) (offline : Bool)
    (net : SendResult) : Except MtgjsonError (Option String) :=
  if cached_remote.isSome then
    .ok cached_remote
  else if offline then
    .ok none
  else
    match net with
    | .transportError => .ok none
    | .ok resp =>
      if error_for_status_fails resp.status then
        .error (.Http resp.status)
      else
        match resp.body with
        | .unparsable => .error (.Decode "invalid JSON in Meta response")
        | .parsed dataVersion metaVersion =>
          .ok (dataVersion.orElse (fun _ => metaVersion))

/-- Embedding of `CacheManager::local_version` (src/cache.rs:62-71):
the `version.txt` content, when the file exists and is readable, is
trimmed; otherwise there is no local token. -/
def local_version (version_file : Option String) : Option String :=
  version_file.map (fun s => s.trim)

/-- Embedding of `CacheManager::is_stale` (src/cache.rs:120-132):
no local token means stale; otherwise the remote token is consulted,
`none` is treated as fresh, and two tokens are compared for
inequality. -/
def is_stale (version_file : Option String) (cached_remote : Option String)
    (offline : Bool) (net : SendResult) : Except MtgjsonError Bool :=
  match local_version version_file with
  | none => .ok true
  | some local_ver =>
    match remote_version cached_remote offline net with
    | .error e => .error e
    | .ok none => .ok false
    | .ok (some remote_ver) => .ok (local_ver != remote_ver)

/-- Embedding of `CacheManager::load_json` (src/cache.rs:250-285).
`ensure_result` is the outcome of `ensure_json`, `read_file` the
combined open/decompress/read stage (whose IO failures, including gzip
and UTF-8 decoding, propagate via the question-mark operator), and
`parse` the `serde_json::from_str` stage.  The returned flag records
whether the cached file was deleted. -/
def load_json {α : Type} (ensure_result : Except MtgjsonError String)
    (read_file : String → Except String String)
    (parse : String → Option α) : Except MtgjsonError α × Bool :=
  match ensure_result with
  | .error e => (.error e, false)
  | .ok path =>
    match read_file path with
    | .error io_msg => (.error (.Io io_msg), false)
    | .ok contents =>
      match parse contents with
      | some value => (.ok value, false)
      | none =>
        (.error (.NotFound
          "Cache file was corrupt and has been removed. Retry to re-download."),
         true)

/-! ## View registrar (`src/connection.rs`) -/

/-- Registry state of a `Connection`: the set of registered view names
(`registered_views`, here a duplicate-free list) plus a log of the
registrations actually performed (each of which triggers an
`ensure_parquet` download check and a CREATE VIEW). -/
structure ViewState where
  registered : List String
  registrations : List String
deriving DecidableEq, Repr

/-- Embedding of `Connection::reset_views` (src/connection.rs:265-267):
clears the registry. -/
def reset_views (st : ViewState) : ViewState :=
  { st with registered := [] }

/-- The registration action performed by `Connection::ensure_view` when
the name is not yet registered: materialize the view (download check
plus CREATE VIEW) and insert the name. -/
def register_view (name : String) (st : ViewState) : ViewState :=
  { registered := name :: st.registered,
    registrations := st.registrations ++ [name] }

/-- Embedding of `Connection::ensure_view` (src/connection.rs:279-304):
an early return when the name is already registered, otherwise the
registration action. -/
def ensure_view (name : String) (st : ViewState) : ViewState :=
  if name ∈ st.registered then st else register_view name st

/-- Embedding of `Connection::ensure_views` (src/connection.rs:138-145):
for each name not in the registry, call `ensure_view`. -/
def ensure_views (names : List String) (st : ViewState) : ViewState :=
  names.foldl (fun s n => if n ∈ s.registered then s else ensure_view n s) st

/-- Static allow-list for the `cards` view (src/connection.rs:19-45). -/
def cards_static_list_columns : List String :=
  ["artistIds", "attractionLights", "availability", "boosterTypes",
   "cardParts", "colorIdentity", "colorIndicator", "colors", "finishes",
   "frameEffects", "keywords", "originalPrintings", "otherFaceIds",
   "printings", "producedMana", "promoTypes", "rebalancedPrintings",
   "subsets", "subtypes", "supertypes", "types", "variations"]

/-- Static allow-list for the `tokens` view (src/connection.rs:46-66). -/
def tokens_static_list_columns : List String :=
  ["artistIds", "availability", "boosterTypes", "colorIdentity",
   "colorIndicator", "colors", "finishes", "frameEffects", "keywords",
   "otherFaceIds", "producedMana", "promoTypes", "reverseRelated",
   "subtypes", "supertypes", "types"]

/-- Embedding of `static_list_columns` (src/connection.rs:17-68): the
per-view static allow-list of known list columns. -/
def static_list_columns (view_name : String) : List String :=
  if view_name = "cards" then cards_static_list_columns
  else if view_name = "tokens" then tokens_static_list_columns
  else []

/-- Embedding of `ignored_columns` (src/connection.rs:73-94): VARCHAR
columns that must never be split into arrays. -/
def ignored_columns : List String :=
  ["text", "originalText", "flavorText", "printedText", "identifiers",
   "legalities", "leadershipSkills", "purchaseUrls", "relatedCards",
   "rulings", "sourceProducts", "foreignData", "translations",
   "toughness", "status", "format", "uris", "scryfallUri"]

/-- Embedding of `json_cast_columns` (src/connection.rs:98-110). -/
def json_cast_columns : List String :=
  ["identifiers", "legalities", "leadershipSkills", "purchaseUrls",
   "relatedCards", "rulings", "sourceProducts", "foreignData",
   "translations"]

/-- Rust `col.ends_with('s')` on the column name. -/
def ends_with_s (col : String) : Bool :=
  col.data.getLast? == some 's'

/-- The `schema_map` of `build_csv_replace`: a HashMap populated by
inserting the introspected `(column_name, column_type)` rows in order,
so a later row with the same name overwrites an earlier one. -/
def lookup_type (schema : List (String × String)) (col : String) :
    Option String :=
  (schema.reverse.find? (fun p => p.1 == col)).map (fun p => p.2)

/-- Layer 2 of `build_csv_replace` (src/connection.rs:347-358): names of
introspected VARCHAR columns that end in the pluralizing suffix and are
not block-listed. -/
def heuristic_candidates (schema : List (String × String)) : List String :=
  (schema.filter (fun p =>
    p.2 == "VARCHAR" && !(ignored_columns.contains p.1) && ends_with_s p.1)).map
    (fun p => p.1)

/-- Layers 1 and 2 of `build_csv_replace` combined: the candidate set
(the source accumulates both layers into one HashSet). -/
def array_candidates (view_name : String) (schema : List (String × String)) :
    List String :=
  static_list_columns view_name ++ heuristic_candidates schema

/-- The `final_cols` of `build_csv_replace` (src/connection.rs:360-365):
candidates restricted to columns that exist as VARCHAR in this file's
schema.  The HashSet of the source is modelled by deduplication; the
source additionally sorts the result, which does not affect membership. -/
def array_rewrite_cols (view_name : String) (schema : List (String × String)) :
    List String :=
  ((array_candidates view_name schema).dedup).filter
    (fun col => lookup_type schema col == some "VARCHAR")

/-! ## Booster simulator (`src/booster/simulator.rs`) -/

/-- ASCII lower/upper pairs backing the set-code normalization; MTGJSON
set codes are ASCII, so this captures `str::to_uppercase` on them. -/
def ascii_case_pairs : List (Char × Char) :=
  [('a', 'A'), ('b', 'B'), ('c', 'C'), ('d', 'D'), ('e', 'E'), ('f', 'F'),
   ('g', 'G'), ('h', 'H'), ('i', 'I'), ('j', 'J'), ('k', 'K'), ('l', 'L'),
   ('m', 'M'), ('n', 'N'), ('o', 'O'), ('p', 'P'), ('q', 'Q'), ('r', 'R'),
   ('s', 'S'), ('t', 'T'), ('u', 'U'), ('v', 'V'), ('w', 'W'), ('x', 'X'),
   ('y', 'Y'), ('z', 'Z')]

/-- Uppercase one character (identity outside the lowercase range). -/
def upper_char (c : Char) : Char :=
  ((ascii_case_pairs.find? (fun p => p.1 == c)).map (fun p => p.2)).getD c

/-- Embedding of `set_code.to_uppercase()`. -/
def to_uppercase (s : String) : String :=
  String.mk (s.data.map upper_char)

/-- A pack template as built by `get_pack_templates`
(src/booster/simulator.rs:176-262): a weight and the sheet-name to
pick-count layout. -/
structure Template where
  weight : Int
  sheets : List (String × Int)
deriving DecidableEq, Repr, Inhabited

/-- A sheet as built by `get_sheet_data`
(src/booster/simulator.rs:266-341): the duplicate flag, the declared
total weight and the card-identifier to weight map. -/
structure SheetData where
  allowDuplicates : Bool
  totalWeight : Int
  cards : List (String × Int)
deriving DecidableEq, Repr

/-- The roulette-wheel walk shared by all weighted draws: subtract each
weight in turn from the roll and return the index at which the running
value first goes negative, or `none` when it never does. -/
def roulette_walk : Int → List Int → Option Nat
  | _, [] => none
  | roll, w :: ws =>
    if roll - w < 0 then some 0
    else (roulette_walk (roll - w) ws).map (fun i => i + 1)

/-- Embedding of `weighted_choices_with_replacement`
(src/booster/simulator.rs:460-483): for a non-positive total weight the
draw contributes nothing; otherwise each of `count` independent rolls
pushes the identifier at the index where the walk crosses zero (a roll
that never crosses pushes nothing, matching the for-loop without an
else branch). -/
def weighted_choices_with_replacement (uuids : List String)
    (weights : List Int) (count : Nat) (roll : Nat → Int → Int) :
    List String :=
  let total := weights.sum
  if total ≤ 0 then []
  else
    (List.range count).filterMap (fun step =>
      (roulette_walk (roll step total) weights).map (fun i => uuids.getD i ""))

/-- Loop body of `weighted_choices_without_replacement`
(src/booster/simulator.rs:497-520), with the iteration count as fuel:
stop on an empty pool or a non-positive remaining total, otherwise
remove the chosen card (identifier and weight) from the remaining pool.
The source defaults `picked_idx` to the last index before the walk. -/
def wcwor_go (roll : Nat → Int → Int) :
    Nat → Nat → List String → List Int → List String
  | 0, _, _, _ => []
  | fuel + 1, step, remaining_uuids, remaining_weights =>
    if remaining_uuids.isEmpty then []
    else
      let total := remaining_weights.sum
      if total ≤ 0 then []
      else
        let idx :=
          (roulette_walk (roll step total) remaining_weights).getD
            (remaining_uuids.length - 1)
        remaining_uuids.getD idx "" ::
          wcwor_go roll fuel (step + 1) (remaining_uuids.eraseIdx idx)
            (remaining_weights.eraseIdx idx)

/-- Embedding of `weighted_choices_without_replacement`
(src/booster/simulator.rs:486-523): the requested count is clamped to
the pool size and the removal loop is run. -/
def weighted_choices_without_replacement (uuids : List String)
    (weights : List Int) (count : Nat) (roll : Nat → Int → Int) :
    List String :=
  wcwor_go roll (min count uuids.length) 0 uuids weights

/-- Embedding of `pick_from_sheet` (src/booster/simulator.rs:424-457):
an empty card map contributes nothing; otherwise the parallel
identifier and weight vectors feed the with- or without-replacement
draw according to the duplicate flag. -/
def pick_from_sheet (sheet : SheetData) (count : Nat)
    (roll : Nat → Int → Int) : List String :=
  if sheet.cards.isEmpty then []
  else
    let uuids := sheet.cards.map (fun c => c.1)
    let weights := sheet.cards.map (fun c => c.2)
    if sheet.allowDuplicates then
      weighted_choices_with_replacement uuids weights count roll
    else
      weighted_choices_without_replacement uuids weights count roll

/-- The subtraction walk of `pick_pack` (src/booster/simulator.rs:404-413)
over templates. -/
def pick_pack_walk : Int → List Template → Option Template
  | _, [] => none
  | roll, b :: bs =>
    if roll - b.weight < 0 then some b else pick_pack_walk (roll - b.weight) bs

/-- Embedding of `pick_pack` (src/booster/simulator.rs:390-417): a
non-positive total weight falls back to a uniform pick (`upick` models
`gen_range(0..len)`, reduced into range); otherwise the roulette walk
runs, with the source's final `boosters.last().unwrap()` fallback. -/
def pick_pack (boosters : List Template) (upick : Nat) (roll : Int) :
    Template :=
  let total := (boosters.map (fun b => b.weight)).sum
  if total ≤ 0 then boosters.getD (upick % boosters.length) default
  else (pick_pack_walk roll boosters).getD (boosters.getLastD default)

/-- The sheet loop of `open_pack` (src/booster/simulator.rs:82-98): for
each sheet of the chosen template with a positive pick count, a missing
sheet is skipped and an existing one contributes its draw, in sheet
order.  A pick-count that is zero or negative is skipped (the source's
`as_u64().unwrap_or(0)` turns a negative count into zero). -/
def draw_pack_uuids (template : Template)
    (get_sheet : String → Option SheetData)
    (rolls : String → Nat → Int → Int) : List String :=
  template.sheets.foldl (fun acc (sp : String × Int) =>
    if sp.2 ≤ 0 then acc
    else
      match get_sheet sp.1 with
      | none => acc
      | some sheet => acc ++ pick_from_sheet sheet sp.2.toNat (rolls sp.1)) []

/-- Embedding of `fetch_cards_by_uuids` (src/booster/simulator.rs:344-379):
the rows returned by the IN query (the view rows whose uuid is among the
requested ones, in view order) are folded into a uuid-keyed map where a
later row wins, then the requested uuids are resolved in order, keeping
duplicates and skipping uuids with no record. -/
def fetch_cards_by_uuids {α : Type} (uuids : List String)
    (cards_view : List (String × α)) : List α :=
  if uuids.isEmpty then []
  else
    let rows := cards_view.filter (fun r => uuids.contains r.1)
    let card_map := fun u =>
      ((rows.filter (fun r => r.1 == u)).getLast?).map (fun r => r.2)
    uuids.filterMap card_map

/-- Embedding of `BoosterSimulator::available_types`
(src/booster/simulator.rs:30-53): the distinct booster names for the
uppercased set code; `q` models the DISTINCT query keyed by the bound
set-code parameter. -/
def available_types (q : String → List String) (set_code : String) :
    List String :=
  q (to_uppercase set_code)

/-- Embedding of `BoosterSimulator::open_pack`
(src/booster/simulator.rs:60-106).  `get_templates` models
`get_pack_templates` keyed by the bound (set, type) parameters,
`get_sheet` models `get_sheet_data`, `cards_view` is the cards view
behind `fetch_cards_by_uuids`, and `upick`, `troll` and `rolls` model
the RNG draws for the template pick and the per-sheet card picks. -/
def open_pack {α : Type} (get_templates : String → String → List Template)
    (get_sheet : String → String → String → Option SheetData)
    (cards_view : List (String × α)) (set_code booster_type : String)
    (upick : Nat) (troll : Int) (rolls : String → Nat → Int → Int) :
    Except MtgjsonError (List α) :=
  let upper := to_uppercase set_code
  let pack_templates := get_templates upper booster_type
  if pack_templates.isEmpty then
    .error (.NotFound "No booster configuration found for set and type")
  else
    let template := pick_pack pack_templates upick troll
    let all_uuids := draw_pack_uuids template (get_sheet upper booster_type) rolls
    if all_uuids.isEmpty then .ok []
    else .ok (fetch_cards_by_uuids all_uuids cards_view)

/-- Row-to-map fold of `sheet_contents` (src/booster/simulator.rs:151-166):
rows with an empty uuid are skipped, and inserting into the HashMap
replaces an existing binding for the same uuid. -/
def assoc_insert (k : String) (v : Int) :
    List (String × Int) → List (String × Int)
  | [] => [(k, v)]
  | (k2, v2) :: rest =>
    if k2 = k then (k, v) :: rest else (k2, v2) :: assoc_insert k v rest

/-- Embedding of `BoosterSimulator::sheet_contents`
(src/booster/simulator.rs:128-169): the sheet-cards query is keyed by
the uppercased set code and the verbatim booster type and sheet name;
no rows means `none`, otherwise the uuid-to-weight map is built. -/
def sheet_contents (q : String → String → String → List (String × Int))
    (set_code booster_type sheet_name : String) :
    Option (List (String × Int)) :=
  let rows := q (to_uppercase set_code) booster_type sheet_name
  if rows.isEmpty then none
  else
    some (rows.foldl
      (fun acc r => if r.1 = "" then acc else assoc_insert r.1 r.2 acc) [])

/-! ## Helper lemmas -/

theorem getD_mem {α : Type} (d : α) :
    ∀ (l : List α) (i : Nat), i < l.length → l.getD i d ∈ l := by
  intro l
  induction l with
  | nil => intro i h; simp at h
  | cons a t ih =>
    intro i h
    cases i with
    | zero => simp
    | succ j =>
      simp only [List.getD_cons_succ]
      exact List.mem_cons_of_mem a (ih j (by simpa using h))

theorem getLast?_mem {α : Type} :
    ∀ (l : List α) (x : α), l.getLast? = some x → x ∈ l := by
  intro l
  induction l with
  | nil => intro x h; simp at h
  | cons a t ih =>
    intro x h
    cases t with
    | nil => simp_all
    | cons b u =>
      rw [List.getLast?_cons_cons] at h
      exact List.mem_cons_of_mem a (ih x h)

theorem nodup_getD_not_mem_eraseIdx {α : Type} (d : α) :
    ∀ (l : List α) (i : Nat), l.Nodup → i < l.length →
      l.getD i d ∉ l.eraseIdx i := by
  intro l
  induction l with
  | nil => intro i _ h; simp at h
  | cons a t ih =>
    intro i hn h
    rcases List.nodup_cons.mp hn with ⟨ha, ht⟩
    cases i with
    | zero => simpa using ha
    | succ j =>
      have hj : j < t.length := by simpa using h
      have hmem : t.getD j d ∈ t := getD_mem d t j hj
      simp only [List.getD_cons_succ, List.eraseIdx_cons_succ, List.mem_cons,
        not_or]
      exact ⟨fun he => ha (he ▸ hmem), ih j ht hj⟩

theorem filterMap_length_of_isSome {α β : Type} (f : α → Option β) :
    ∀ l : List α, (∀ a ∈ l, (f a).isSome) →
      (l.filterMap f).length = l.length := by
  intro l
  induction l with
  | nil => intro _; rfl
  | cons a t ih =>
    intro h
    have ha := h a (List.mem_cons_self a t)
    rcases Option.isSome_iff_exists.mp ha with ⟨b, hb⟩
    rw [List.filterMap_cons, hb, List.length_cons, List.length_cons,
      ih (fun x hx => h x (List.mem_cons_of_mem a hx))]

theorem roulette_walk_lt :
    ∀ (ws : List Int) (roll : Int) (i : Nat),
      roulette_walk roll ws = some i → i < ws.length := by
  intro ws
  induction ws with
  | nil => intro roll i h; simp [roulette_walk] at h
  | cons w rest ih =>
    intro roll i h
    simp only [roulette_walk] at h
    by_cases hc : roll - w < 0
    · rw [if_pos hc] at h
      cases h
      simp
    · rw [if_neg hc] at h
      rcases Option.map_eq_some'.mp h with ⟨j, hj, rfl⟩
      have := ih (roll - w) j hj
      simpa using Nat.succ_lt_succ this

theorem roulette_walk_isSome :
    ∀ (ws : List Int) (roll : Int), 0 ≤ roll → roll < ws.sum →
      (roulette_walk roll ws).isSome := by
  intro ws
  induction ws with
  | nil =>
    intro roll h0 h1
    simp at h1
    omega
  | cons w rest ih =>
    intro roll h0 h1
    simp only [roulette_walk]
    by_cases hc : roll - w < 0
    · rw [if_pos hc]; rfl
    · rw [if_neg hc]
      have h2 : 0 ≤ roll - w := by omega
      have h3 : roll - w < rest.sum := by
        rw [List.sum_cons] at h1
        omega
      rcases Option.isSome_iff_exists.mp (ih (roll - w) h2 h3) with ⟨j, hj⟩
      rw [hj]
      rfl

/-! ## C1: weighted sampling without replacement -/

theorem wcwor_idx_lt (roll : Nat → Int → Int) (step : Nat)
    (us : List String) (ws : List Int) (hne : us ≠ [])
    (hlen : ws.length = us.length) :
    (roulette_walk (roll step ws.sum) ws).getD (us.length - 1) < us.length := by
  cases hw : roulette_walk (roll step ws.sum) ws with
  | none =>
    simp only [Option.getD_none]
    have : 0 < us.length := List.length_pos.mpr hne
    omega
  | some i =>
    simp only [Option.getD_some]
    have := roulette_walk_lt ws (roll step ws.sum) i hw
    omega

theorem wcwor_go_nodup_subset (roll : Nat → Int → Int) :
    ∀ (fuel step : Nat) (us : List String) (ws : List Int),
      us.Nodup → ws.length = us.length →
      (wcwor_go roll fuel step us ws).Nodup ∧
        ∀ x ∈ wcwor_go roll fuel step us ws, x ∈ us := by
  intro fuel
  induction fuel with
  | zero => intro step us ws _ _; exact ⟨List.nodup_nil, by simp [wcwor_go]⟩
  | succ n ih =>
    intro step us ws hnd hlen
    by_cases hus : us.isEmpty
    · simp [wcwor_go, hus]
    · by_cases htot : ws.sum ≤ 0
      · simp [wcwor_go, hus, htot]
      · have hne : us ≠ [] := by
          cases us with
          | nil => simp at hus
          | cons a t => exact List.cons_ne_nil a t
        have hidx := wcwor_idx_lt roll step us ws hne hlen
        set idx := (roulette_walk (roll step ws.sum) ws).getD (us.length - 1)
          with hidx_def
        have hidxw : idx < ws.length := by omega
        have hnd2 : (us.eraseIdx idx).Nodup :=
          hnd.sublist (List.eraseIdx_sublist us idx)
        have hlen2 : (ws.eraseIdx idx).length = (us.eraseIdx idx).length := by
          rw [List.length_eraseIdx, List.length_eraseIdx, if_pos hidx,
            if_pos hidxw, hlen]
        rcases ih (step + 1) (us.eraseIdx idx) (ws.eraseIdx idx) hnd2 hlen2
          with ⟨htail_nd, htail_sub⟩
        have hgo : wcwor_go roll (n + 1) step us ws =
            us.getD idx "" ::
              wcwor_go roll n (step + 1) (us.eraseIdx idx) (ws.eraseIdx idx) := by
          simp only [wcwor_go, hus, Bool.false_eq_true, if_false]
          rw [if_neg htot]
        rw [hgo]
        constructor
        · refine List.nodup_cons.mpr ⟨fun hmem => ?_, htail_nd⟩
          exact nodup_getD_not_mem_eraseIdx "" us idx hnd hidx
            (htail_sub _ hmem)
        · intro x hx
          rcases List.mem_cons.mp hx with h | h
          · exact h ▸ getD_mem "" us idx hidx
          · exact (List.eraseIdx_sublist us idx).subset (htail_sub x h)

theorem wcwor_go_length_le (roll : Nat → Int → Int) :
    ∀ (fuel step : Nat) (us : List String) (ws : List Int),
      (wcwor_go roll fuel step us ws).length ≤ fuel := by
  intro fuel
  induction fuel with
  | zero => intro step us ws; simp [wcwor_go]
  | succ n ih =>
    intro step us ws
    by_cases hus : us.isEmpty
    · simp [wcwor_go, hus]
    · by_cases htot : ws.sum ≤ 0
      · simp [wcwor_go, hus, htot]
      · have hgo : wcwor_go roll (n + 1) step us ws =
            us.getD ((roulette_walk (roll step ws.sum) ws).getD (us.length - 1))
                "" ::
              wcwor_go roll n (step + 1)
                (us.eraseIdx
                  ((roulette_walk (roll step ws.sum) ws).getD (us.length - 1)))
                (ws.eraseIdx
                  ((roulette_walk (roll step ws.sum) ws).getD
                    (us.length - 1))) := by
          simp only [wcwor_go, hus, Bool.false_eq_true, if_false]
          rw [if_neg htot]
        rw [hgo, List.length_cons]
        exact Nat.succ_le_succ (ih _ _ _)

theorem wcwor_go_length_eq (roll : Nat → Int → Int) :
    ∀ (fuel step : Nat) (us : List String) (ws : List Int),
      ws.length = us.length → fuel ≤ us.length → (∀ w ∈ ws, 0 < w) →
      (wcwor_go roll fuel step us ws).length = fuel := by
  intro fuel
  induction fuel with
  | zero => intro step us ws _ _ _; simp [wcwor_go]
  | succ n ih =>
    intro step us ws hlen hfuel hpos
    have hne : us ≠ [] := by
      intro h
      rw [h] at hfuel
      simp at hfuel
    have hus : us.isEmpty = false := by
      cases us with
      | nil => exact absurd rfl hne
      | cons a t => rfl
    have hwne : ws ≠ [] := by
      intro h
      rw [h] at hlen
      have : us.length = 0 := hlen.symm
      exact hne (List.length_eq_zero.mp this)
    have htot : ¬ ws.sum ≤ 0 := not_le.mpr (List.sum_pos ws hpos hwne)
    have hidx := wcwor_idx_lt roll step us ws hne hlen
    set idx := (roulette_walk (roll step ws.sum) ws).getD (us.length - 1)
      with hidx_def
    have hidxw : idx < ws.length := by omega
    have hgo : wcwor_go roll (n + 1) step us ws =
        us.getD idx "" ::
          wcwor_go roll n (step + 1) (us.eraseIdx idx) (ws.eraseIdx idx) := by
      simp only [wcwor_go, hus, Bool.false_eq_true, if_false]
      rw [if_neg htot]
    rw [hgo, List.length_cons]
    have hlen2 : (ws.eraseIdx idx).length = (us.eraseIdx idx).length := by
      rw [List.length_eraseIdx, List.length_eraseIdx, if_pos hidx,
        if_pos hidxw, hlen]
    have hfuel2 : n ≤ (us.eraseIdx idx).length := by
      rw [List.length_eraseIdx, if_pos hidx]
      omega
    have hpos2 : ∀ w ∈ ws.eraseIdx idx, 0 < w := fun w hw =>
      hpos w ((List.eraseIdx_sublist ws idx).subset hw)
    rw [ih (step + 1) (us.eraseIdx idx) (ws.eraseIdx idx) hlen2 hfuel2 hpos2]

/-- C1: for a sheet with pairwise-distinct identifiers and parallel
weight vector, the no-duplicates draw returns a duplicate-free list of
sheet identifiers of length at most `min count uuids.length`, with
equality whenever every weight is positive; being a total function of
its inputs, it never errors, even when `count` exceeds the pool size. -/
theorem claim_C1_without_replacement (uuids : List String)
    (weights : List Int) (count : Nat) (roll : Nat → Int → Int)
    (hnd : uuids.Nodup) (hlen : weights.length = uuids.length) :
    (weighted_choices_without_replacement uuids weights count roll).Nodup ∧
    (∀ x ∈ weighted_choices_without_replacement uuids weights count roll,
      x ∈ uuids) ∧
    (weighted_choices_without_replacement uuids weights count roll).length ≤
      min count uuids.length ∧
    ((∀ w ∈ weights, 0 < w) →
      (weighted_choices_without_replacement uuids weights count roll).length =
        min count uuids.length) := by
  unfold weighted_choices_without_replacement
  rcases wcwor_go_nodup_subset roll (min count uuids.length) 0 uuids weights
    hnd hlen with ⟨h1, h2⟩
  refine ⟨h1, h2, wcwor_go_length_le roll _ 0 uuids weights, fun hpos => ?_⟩
  exact wcwor_go_length_eq roll (min count uuids.length) 0 uuids weights hlen
    (Nat.min_le_right count uuids.length) hpos

theorem claim_C1_without_replacement_witness :
    (["a", "b", "c"] : List String).Nodup ∧
    (([1, 1, 1] : List Int).length = (["a", "b", "c"] : List String).length) ∧
    ((weighted_choices_without_replacement ["a", "b", "c"] [1, 1, 1] 5
        (fun _ _ => 0)).Nodup ∧
      (∀ x ∈ weighted_choices_without_replacement ["a", "b", "c"] [1, 1, 1] 5
          (fun _ _ => 0), x ∈ (["a", "b", "c"] : List String)) ∧
      (weighted_choices_without_replacement ["a", "b", "c"] [1, 1, 1] 5
          (fun _ _ => 0)).length ≤ min 5 (["a", "b", "c"] : List String).length ∧
      ((∀ w ∈ ([1, 1, 1] : List Int), 0 < w) →
        (weighted_choices_without_replacement ["a", "b", "c"] [1, 1, 1] 5
            (fun _ _ => 0)).length =
          min 5 (["a", "b", "c"] : List String).length)) :=
  ⟨by decide, by decide,
    claim_C1_without_replacement ["a", "b", "c"] [1, 1, 1] 5 (fun _ _ => 0)
      (by decide) (by decide)⟩

/-! ## C2: weighted sampling with replacement -/

/-- C2: for a sheet with strictly positive total weight and in-range
rolls (the guarantee of `gen_range`), the with-replacement draw returns
exactly `count` identifiers, each one of the sheet's cards; for a
non-positive total weight it returns the empty list, so it never
divides by zero or panics. -/
theorem claim_C2_with_replacement (uuids : List String) (weights : List Int)
    (count : Nat) (roll : Nat → Int → Int)
    (hlen : weights.length = uuids.length) :
    (0 < weights.sum →
      (∀ step, 0 ≤ roll step weights.sum ∧
        roll step weights.sum < weights.sum) →
      (weighted_choices_with_replacement uuids weights count roll).length =
          count ∧
        ∀ x ∈ weighted_choices_with_replacement uuids weights count roll,
          x ∈ uuids) ∧
    (weights.sum ≤ 0 →
      weighted_choices_with_replacement uuids weights count roll = []) := by
  constructor
  · intro hpos hroll
    have hif : ¬ weights.sum ≤ 0 := not_le.mpr hpos
    unfold weighted_choices_with_replacement
    simp only [hif, if_false]
    constructor
    · rw [filterMap_length_of_isSome _ (List.range count) ?_]
      · exact List.length_range count
      · intro step _
        rcases hroll step with ⟨h0, h1⟩
        rcases Option.isSome_iff_exists.mp
          (roulette_walk_isSome weights (roll step weights.sum) h0 h1)
          with ⟨i, hi⟩
        rw [hi]
        rfl
    · intro x hx
      rcases List.mem_filterMap.mp hx with ⟨step, _, hstep⟩
      rcases Option.map_eq_some'.mp hstep with ⟨i, hi, rfl⟩
      have hilt : i < uuids.length := by
        have := roulette_walk_lt weights (roll step weights.sum) i hi
        omega
      exact getD_mem "" uuids i hilt
  · intro hnp
    unfold weighted_choices_with_replacement
    simp only [hnp, if_true]

theorem claim_C2_with_replacement_witness :
    (([2, 1, 1] : List Int).length = (["a", "b", "c"] : List String).length) ∧
    (0 < ([2, 1, 1] : List Int).sum) ∧
    ((weighted_choices_with_replacement ["a", "b", "c"] [2, 1, 1] 10
        (fun step _ => step % 4)).length = 10 ∧
      ∀ x ∈ weighted_choices_with_replacement ["a", "b", "c"] [2, 1, 1] 10
          (fun step _ => step % 4), x ∈ (["a", "b", "c"] : List String)) :=
  ⟨by decide, by decide,
    (claim_C2_with_replacement ["a", "b", "c"] [2, 1, 1] 10
        (fun step _ => step % 4) (by decide)).1 (by decide)
      (fun step => by
        have h4 : (([2, 1, 1] : List Int).sum) = 4 := by decide
        refine ⟨Int.emod_nonneg _ (by decide), ?_⟩
        rw [h4]
        exact Int.emod_lt_of_pos _ (by decide))⟩

/-! ## C3: open_pack error semantics -/

/-- C3: `open_pack` fails exactly when no pack templates are configured
for the (uppercased) set code and booster type, and the failure is the
NotFound error; when templates exist but the chosen template's sheets
contribute no identifiers, the result is `ok []` rather than an
error. -/
theorem claim_C3_open_pack_errors {α : Type}
    (get_templates : String → String → List Template)
    (get_sheet : String → String → String → Option SheetData)
    (cards_view : List (String × α)) (set_code booster_type : String)
    (upick : Nat) (troll : Int) (rolls : String → Nat → Int → Int) :
    ((∃ e, open_pack get_templates get_sheet cards_view set_code booster_type
        upick troll rolls = .error e) ↔
      get_templates (to_uppercase set_code) booster_type = []) ∧
    (∀ e, open_pack get_templates get_sheet cards_view set_code booster_type
        upick troll rolls = .error e →
      e = .NotFound "No booster configuration found for set and type") ∧
    (get_templates (to_uppercase set_code) booster_type ≠ [] →
      draw_pack_uuids
          (pick_pack (get_templates (to_uppercase set_code) booster_type)
            upick troll)
          (get_sheet (to_uppercase set_code) booster_type) rolls = [] →
      open_pack get_templates get_sheet cards_view set_code booster_type
        upick troll rolls = .ok []) := by
  unfold open_pack
  by_cases hempty : (get_templates (to_uppercase set_code) booster_type).isEmpty
  · have he : get_templates (to_uppercase set_code) booster_type = [] :=
      List.isEmpty_iff.mp hempty
    simp only [hempty, if_true]
    refine ⟨⟨fun _ => he, fun _ => ⟨_, rfl⟩⟩, ?_, fun hne _ => absurd he hne⟩
    intro e h
    cases h
    rfl
  · have he : get_templates (to_uppercase set_code) booster_type ≠ [] :=
      fun h => hempty (by simp [h])
    simp only [hempty, Bool.false_eq_true, if_false]
    constructor
    · constructor
      · intro hex
        rcases hex with ⟨e, heq⟩
        split at heq <;> simp_all
      · intro h
        exact absurd h he
    constructor
    · intro e h
      split at h <;> simp_all
    · intro _ hdraw
      rw [if_pos (List.isEmpty_iff.mpr hdraw)]

theorem claim_C3_open_pack_errors_witness :
    open_pack (fun _ _ => [{ weight := 1, sheets := [("common", 3)] }])
        (fun _ _ _ => none) ([] : List (String × Nat)) "mh3" "draft" 0 0
        (fun _ _ _ => 0) = .ok [] :=
  (claim_C3_open_pack_errors
      (fun _ _ => [{ weight := 1, sheets := [("common", 3)] }])
      (fun _ _ _ => none) ([] : List (String × Nat)) "mh3" "draft" 0 0
      (fun _ _ _ => 0)).2.2 (by decide) (by decide)

/-! ## C9: batch fetch preserves order and multiplicity -/

theorem filterMap_getElem?_of_isSome {α β : Type} (f : α → Option β) :
    ∀ (l : List α), (∀ a ∈ l, (f a).isSome) → ∀ (i : Nat) (a : α),
      l[i]? = some a → (l.filterMap f)[i]? = f a := by
  intro l
  induction l with
  | nil => intro _ i a h; simp at h
  | cons x t ih =>
    intro h i a hi
    have hx := h x (List.mem_cons_self x t)
    rcases Option.isSome_iff_exists.mp hx with ⟨b, hb⟩
    have hfm : (x :: t).filterMap f = b :: t.filterMap f := by
      rw [List.filterMap_cons, hb]
    cases i with
    | zero =>
      have hax : a = x := by
        have hxa : x = a := by simpa using hi
        exact hxa.symm
      rw [hfm, hax]
      simpa using hb.symm
    | succ j =>
      have hij : t[j]? = some a := by simpa using hi
      rw [hfm]
      simpa using ih (fun y hy => h y (List.mem_cons_of_mem x hy)) j a hij

theorem fetch_card_map_isSome {α : Type} (uuids : List String)
    (cards_view : List (String × α)) (u : String) (hu : u ∈ uuids)
    (hex : ∃ c, (u, c) ∈ cards_view) :
    ((((cards_view.filter (fun r => uuids.contains r.1)).filter
        (fun r => r.1 == u)).getLast?).map (fun r => r.2)).isSome := by
  rcases hex with ⟨c, hc⟩
  have h1 : (u, c) ∈ cards_view.filter (fun r => uuids.contains r.1) :=
    List.mem_filter.mpr ⟨hc, by simpa using hu⟩
  have h2 : (u, c) ∈ (cards_view.filter (fun r => uuids.contains r.1)).filter
      (fun r => r.1 == u) :=
    List.mem_filter.mpr ⟨h1, by simp⟩
  have hne : (cards_view.filter (fun r => uuids.contains r.1)).filter
      (fun r => r.1 == u) ≠ [] := List.ne_nil_of_mem h2
  rw [Option.isSome_map']
  exact List.getLast?_isSome.mpr hne

theorem fetch_card_map_mem {α : Type} (uuids : List String)
    (cards_view : List (String × α)) (u : String) (c : α)
    (h : ((((cards_view.filter (fun r => uuids.contains r.1)).filter
        (fun r => r.1 == u)).getLast?).map (fun r => r.2)) = some c) :
    (u, c) ∈ cards_view := by
  rcases Option.map_eq_some'.mp h with ⟨r, hr, hc⟩
  have hmem := getLast?_mem _ r hr
  rcases List.mem_filter.mp hmem with ⟨hrows, hpred⟩
  rcases List.mem_filter.mp hrows with ⟨hview, _⟩
  have hr1 : r.1 = u := by simpa using hpred
  have : r = (u, c) := by
    rcases r with ⟨r1, r2⟩
    simp only at hr1 hc
    rw [hr1, hc]
  rw [← this]
  exact hview

/-- C9: when every drawn identifier has a record in the cards view, the
batch fetch returns exactly one record per drawn identifier, in draw
order, a duplicated identifier yielding a duplicated record: the i-th
output is a view record for the i-th drawn identifier. -/
theorem claim_C9_fetch_order {α : Type} (uuids : List String)
    (cards_view : List (String × α))
    (hall : ∀ u ∈ uuids, ∃ c, (u, c) ∈ cards_view) :
    (fetch_cards_by_uuids uuids cards_view).length = uuids.length ∧
    ∀ (i : Nat), i < uuids.length →
      ∃ u c, uuids[i]? = some u ∧
        (fetch_cards_by_uuids uuids cards_view)[i]? = some c ∧
        (u, c) ∈ cards_view := by
  by_cases hem : uuids.isEmpty
  · have he : uuids = [] := List.isEmpty_iff.mp hem
    subst he
    exact ⟨by simp [fetch_cards_by_uuids], fun i h1 => by simp at h1⟩
  · have hfetch : fetch_cards_by_uuids uuids cards_view =
        uuids.filterMap (fun u =>
          ((((cards_view.filter (fun r => uuids.contains r.1)).filter
            (fun r => r.1 == u)).getLast?).map (fun r => r.2))) := by
      unfold fetch_cards_by_uuids
      rw [if_neg (by simp [hem])]
    have hsome : ∀ u ∈ uuids,
        (((((cards_view.filter (fun r => uuids.contains r.1)).filter
          (fun r => r.1 == u)).getLast?).map (fun r => r.2))).isSome :=
      fun u hu => fetch_card_map_isSome uuids cards_view u hu (hall u hu)
    constructor
    · rw [hfetch, filterMap_length_of_isSome _ uuids hsome]
    · intro i h1
      have hiu : ∃ u, uuids[i]? = some u := by
        rw [List.getElem?_eq_getElem h1]
        exact ⟨uuids[i], rfl⟩
      rcases hiu with ⟨u, hu⟩
      have humem : u ∈ uuids := by
        have := List.getElem?_eq_some_iff.mp hu
        rcases this with ⟨hlt, heq⟩
        exact heq ▸ List.getElem_mem hlt
      have hf := filterMap_getElem?_of_isSome _ uuids hsome i u hu
      rcases Option.isSome_iff_exists.mp (hsome u humem) with ⟨c, hc⟩
      refine ⟨u, c, hu, ?_, fetch_card_map_mem uuids cards_view u c hc⟩
      rw [hfetch, hf, hc]

theorem claim_C9_fetch_order_witness :
    (fetch_cards_by_uuids ["a", "b", "a"]
        [("a", 10), ("b", 20)] : List Nat).length =
      (["a", "b", "a"] : List String).length ∧
    ∀ (i : Nat), i < (["a", "b", "a"] : List String).length →
      ∃ u c, (["a", "b", "a"] : List String)[i]? = some u ∧
        (fetch_cards_by_uuids ["a", "b", "a"]
          [("a", 10), ("b", 20)] : List Nat)[i]? = some c ∧
        (u, c) ∈ ([("a", 10), ("b", 20)] : List (String × Nat)) :=
  claim_C9_fetch_order ["a", "b", "a"] [("a", 10), ("b", 20)]
    (by
      intro u hu
      rcases List.mem_cons.mp hu with rfl | hu2
      · exact ⟨10, by decide⟩
      rcases List.mem_cons.mp hu2 with rfl | hu3
      · exact ⟨20, by decide⟩
      rcases List.mem_cons.mp hu3 with rfl | hu4
      · exact ⟨10, by decide⟩
      · simp at hu4)

/-! ## C10: case handling of simulator arguments -/

theorem upper_no_relower :
    ∀ p ∈ ascii_case_pairs,
      ascii_case_pairs.find? (fun q => q.1 == p.2) = none := by decide

theorem upper_char_idem (c : Char) :
    upper_char (upper_char c) = upper_char c := by
  cases h : ascii_case_pairs.find? (fun p => p.1 == c) with
  | none =>
    have hc : upper_char c = c := by simp [upper_char, h]
    rw [hc, hc]
  | some p =>
    have hc : upper_char c = p.2 := by simp [upper_char, h]
    have hp : p ∈ ascii_case_pairs := List.mem_of_find?_eq_some h
    have h2 : upper_char p.2 = p.2 := by
      simp [upper_char, upper_no_relower p hp]
    rw [hc, h2]

theorem map_upper_char_idem :
    ∀ l : List Char, (l.map upper_char).map upper_char = l.map upper_char := by
  intro l
  induction l with
  | nil => rfl
  | cons a t ih => simp only [List.map_cons, upper_char_idem a, ih]

theorem to_uppercase_idem (s : String) :
    to_uppercase (to_uppercase s) = to_uppercase s := by
  unfold to_uppercase
  exact congrArg String.mk (map_upper_char_idem s.data)

/-- C10: `available_types`, `open_pack` and `sheet_contents` uppercase
the set code before querying, so a lowercase set code behaves exactly
like its uppercase form; the booster-type and sheet-name arguments are
passed through verbatim, so they remain case-sensitive (witnessed by
query environments that distinguish the two spellings). -/
theorem claim_C10_case_handling :
    (∀ (q : String → List String) (set_code : String),
      available_types q set_code =
        available_types q (to_uppercase set_code)) ∧
    (∀ (α : Type) (gt : String → String → List Template)
        (gs : String → String → String → Option SheetData)
        (view : List (String × α)) (set_code booster_type : String)
        (upick : Nat) (troll : Int) (rolls : String → Nat → Int → Int),
      open_pack gt gs view set_code booster_type upick troll rolls =
        open_pack gt gs view (to_uppercase set_code) booster_type upick troll
          rolls) ∧
    (∀ (q : String → String → String → List (String × Int))
        (set_code booster_type sheet_name : String),
      sheet_contents q set_code booster_type sheet_name =
        sheet_contents q (to_uppercase set_code) booster_type sheet_name) ∧
    (∃ (gt : String → String → List Template) (bt1 bt2 : String),
      to_uppercase bt1 = to_uppercase bt2 ∧ bt1 ≠ bt2 ∧
      open_pack gt (fun _ _ _ => none) ([] : List (String × Nat)) "mh3" bt1 0 0
          (fun _ _ _ => 0) ≠
        open_pack gt (fun _ _ _ => none) ([] : List (String × Nat)) "mh3" bt2 0
          0 (fun _ _ _ => 0)) ∧
    (∃ (q : String → String → String → List (String × Int))
        (name1 name2 : String),
      to_uppercase name1 = to_uppercase name2 ∧ name1 ≠ name2 ∧
      sheet_contents q "mh3" "draft" name1 ≠
        sheet_contents q "mh3" "draft" name2) := by
  refine ⟨?_, ?_, ?_, ?_, ?_⟩
  · intro q set_code
    unfold available_types
    rw [to_uppercase_idem]
  · intro α gt gs view set_code booster_type upick troll rolls
    unfold open_pack
    rw [to_uppercase_idem]
  · intro q set_code booster_type sheet_name
    unfold sheet_contents
    rw [to_uppercase_idem]
  · refine ⟨fun _ bt => if bt = "draft" then [{ weight := 1, sheets := [] }]
      else [], "draft", "DRAFT", by decide, by decide, ?_⟩
    intro h
    have h1 : open_pack
        (fun _ bt => if bt = "draft" then [{ weight := 1, sheets := [] }]
          else []) (fun _ _ _ => none) ([] : List (String × Nat)) "mh3" "draft"
        0 0 (fun _ _ _ => 0) = .ok [] := rfl
    have h2 : open_pack
        (fun _ bt => if bt = "draft" then [{ weight := 1, sheets := [] }]
          else []) (fun _ _ _ => none) ([] : List (String × Nat)) "mh3" "DRAFT"
        0 0 (fun _ _ _ => 0) =
        .error (.NotFound "No booster configuration found for set and type") :=
      rfl
    rw [h1, h2] at h
    exact Except.noConfusion h
  · refine ⟨fun _ _ n => if n = "common" then [("u1", 1)] else [], "common",
      "COMMON", by decide, by decide, by decide⟩

theorem claim_C10_case_handling_witness :
    available_types (fun s => if s = "MH3" then ["draft"] else []) "mh3" =
      available_types (fun s => if s = "MH3" then ["draft"] else [])
        (to_uppercase "mh3") :=
  claim_C10_case_handling.1 (fun s => if s = "MH3" then ["draft"] else []) "mh3"

/-! ## C4: remote_version error recovery (corrected) -/

/-- C4 counterexample: an HTTP error status is not recovered as
`ok none` — `error_for_status` propagates it as an error, contradicting
the claim that every failing outcome of the metadata request yields
`Ok(None)`. -/
theorem claim_C4_counterexample :
    remote_version none false
        (SendResult.ok { status := 500, body := MetaJson.parsed none none }) =
      Except.error (MtgjsonError.Http 500) ∧
    remote_version none false
        (SendResult.ok { status := 500, body := MetaJson.parsed none none }) ≠
      Except.ok none := by
  constructor
  · rfl
  · intro h
    exact Except.noConfusion h

/-- C4 (amended): `remote_version` recovers the offline case and a
transport-level send failure as `ok none`, but an HTTP error status
propagates as an `Http` error and an unparsable body as a `Decode`
error; a successfully parsed body yields `ok` of the `data.version`
path, falling back to the `meta.version` path. -/
theorem claim_C4_remote_version_amended :
    (∀ net, remote_version none true net = .ok none) ∧
    (remote_version none false .transportError = .ok none) ∧
    (∀ resp, error_for_status_fails resp.status = true →
      remote_version none false (.ok resp) = .error (.Http resp.status)) ∧
    (∀ st, error_for_status_fails st = false →
      remote_version none false (.ok { status := st, body := .unparsable }) =
        .error (.Decode "invalid JSON in Meta response")) ∧
    (∀ st dataVersion metaVersion, error_for_status_fails st = false →
      remote_version none false
          (.ok { status := st, body := .parsed dataVersion metaVersion }) =
        .ok (dataVersion.orElse (fun _ => metaVersion))) := by
  refine ⟨?_, rfl, ?_, ?_, ?_⟩
  · intro net
    cases net <;> rfl
  · intro resp h
    simp [remote_version, h]
  · intro st h
    simp [remote_version, h]
  · intro st dataVersion metaVersion h
    simp [remote_version, h]

theorem claim_C4_remote_version_amended_witness :
    remote_version none true .transportError = .ok none ∧
    remote_version none false
        (.ok { status := 404, body := MetaJson.parsed none none }) =
      .error (.Http 404) ∧
    remote_version none false
        (.ok { status := 200, body := MetaJson.unparsable }) =
      .error (.Decode "invalid JSON in Meta response") ∧
    remote_version none false
        (.ok { status := 200,
               body := MetaJson.parsed (some "5.2.2") none }) =
      .ok (some "5.2.2") :=
  ⟨claim_C4_remote_version_amended.1 .transportError,
    claim_C4_remote_version_amended.2.2.1
      { status := 404, body := MetaJson.parsed none none } (by decide),
    claim_C4_remote_version_amended.2.2.2.1 200 (by decide),
    by
      have := claim_C4_remote_version_amended.2.2.2.2 200 (some "5.2.2") none
        (by decide)
      simpa using this⟩

/-! ## C5: staleness decision -/

/-- C5: `is_stale` reports stale when no local version token exists;
with a local token and an unavailable remote token it reports fresh;
with both tokens it reports stale exactly when the trimmed local token
differs from the remote token. -/
theorem claim_C5_is_stale (version_file cached_remote : Option String)
    (offline : Bool) (net : SendResult) :
    (version_file = none →
      is_stale version_file cached_remote offline net = .ok true) ∧
    (∀ content, version_file = some content →
      remote_version cached_remote offline net = .ok none →
      is_stale version_file cached_remote offline net = .ok false) ∧
    (∀ content remote_ver, version_file = some content →
      remote_version cached_remote offline net = .ok (some remote_ver) →
      (is_stale version_file cached_remote offline net = .ok true ↔
        content.trim ≠ remote_ver)) := by
  refine ⟨?_, ?_, ?_⟩
  · intro h
    subst h
    rfl
  · intro content hvf hremote
    subst hvf
    unfold is_stale
    simp only [local_version, Option.map_some']
    rw [hremote]
  · intro content remote_ver hvf hremote
    subst hvf
    unfold is_stale
    simp only [local_version, Option.map_some', hremote]
    constructor
    · intro h
      exact bne_iff_ne.mp (Except.ok.inj h)
    · intro h
      exact congrArg Except.ok (bne_iff_ne.mpr h)

theorem claim_C5_is_stale_witness :
    (is_stale none none true .transportError = .ok true) ∧
    (is_stale (some "v1") none true .transportError = .ok false) ∧
    (is_stale (some "v1") none false
        (.ok { status := 200, body := MetaJson.parsed (some "v2") none }) =
        .ok true ↔ "v1".trim ≠ "v2") :=
  ⟨(claim_C5_is_stale none none true .transportError).1 rfl,
    (claim_C5_is_stale (some "v1") none true .transportError).2.1 "v1" rfl rfl,
    (claim_C5_is_stale (some "v1") none false
        (.ok { status := 200, body := MetaJson.parsed (some "v2") none })).2.2
      "v1" "v2" rfl rfl⟩

/-! ## C6: corrupt cache self-healing -/

/-- C6: when the ensure and read stages succeed and the JSON parse of
the contents fails, `load_json` deletes the cached file and returns a
NotFound-class error (not a plain parse error, and, being a total
function, not a panic); when the parse succeeds the value is returned
and the file is kept. -/
theorem claim_C6_load_json_selfheal {α : Type}
    (ensure_result : Except MtgjsonError String)
    (read_file : String → Except String String) (parse : String → Option α)
    (path contents : String) (hok : ensure_result = .ok path)
    (hread : read_file path = .ok contents) :
    (parse contents = none →
      load_json ensure_result read_file parse =
        (.error (.NotFound
          "Cache file was corrupt and has been removed. Retry to re-download."),
         true)) ∧
    (∀ v, parse contents = some v →
      load_json ensure_result read_file parse = (.ok v, false)) := by
  subst hok
  constructor
  · intro hparse
    unfold load_json
    simp only [hread, hparse]
  · intro v hparse
    unfold load_json
    simp only [hread, hparse]

theorem claim_C6_load_json_selfheal_witness :
    (load_json (α := Nat) (.ok "AllPrices.json.gz")
        (fun _ => .ok "garbage") (fun s => if s = "42" then some 42 else none) =
      (.error (.NotFound
        "Cache file was corrupt and has been removed. Retry to re-download."),
       true)) ∧
    (load_json (α := Nat) (.ok "AllPrices.json.gz") (fun _ => .ok "42")
        (fun s => if s = "42" then some 42 else none) = (.ok 42, false)) :=
  ⟨(claim_C6_load_json_selfheal (.ok "AllPrices.json.gz")
        (fun _ => .ok "garbage") (fun s => if s = "42" then some 42 else none)
        "AllPrices.json.gz" "garbage" rfl rfl).1 (by decide),
    (claim_C6_load_json_selfheal (.ok "AllPrices.json.gz")
        (fun _ => .ok "42") (fun s => if s = "42" then some 42 else none)
        "AllPrices.json.gz" "42" rfl rfl).2 42 (by decide)⟩

/-! ## C7: view-registry idempotence -/

theorem ensure_views_cons (m : String) (rest : List String) (st : ViewState) :
    ensure_views (m :: rest) st =
      ensure_views rest (if m ∈ st.registered then st else ensure_view m st) :=
  rfl

theorem ensure_views_step_mem (m n : String) (st : ViewState)
    (h : n ∈ st.registered) :
    n ∈ (if m ∈ st.registered then st else ensure_view m st).registered := by
  by_cases hm : m ∈ st.registered
  · rw [if_pos hm]
    exact h
  · rw [if_neg hm]
    unfold ensure_view
    rw [if_neg hm]
    exact List.mem_cons_of_mem m h

theorem ensure_views_mem_mono (names : List String) :
    ∀ (st : ViewState) (n : String), n ∈ st.registered →
      n ∈ (ensure_views names st).registered := by
  induction names with
  | nil => intro st n h; exact h
  | cons m rest ih =>
    intro st n h
    rw [ensure_views_cons]
    exact ih _ n (ensure_views_step_mem m n st h)

theorem ensure_views_registers (names : List String) :
    ∀ (st : ViewState), ∀ n ∈ names, n ∈ (ensure_views names st).registered := by
  induction names with
  | nil => intro st n h; simp at h
  | cons m rest ih =>
    intro st n hn
    rw [ensure_views_cons]
    rcases List.mem_cons.mp hn with rfl | hrest
    · apply ensure_views_mem_mono
      by_cases hm : n ∈ st.registered
      · rw [if_pos hm]
        exact hm
      · rw [if_neg hm]
        unfold ensure_view
        rw [if_neg hm]
        exact List.mem_cons_self n st.registered
    · exact ih _ n hrest

theorem ensure_views_fixed (names : List String) :
    ∀ (st : ViewState), (∀ n ∈ names, n ∈ st.registered) →
      ensure_views names st = st := by
  induction names with
  | nil => intro st _; rfl
  | cons m rest ih =>
    intro st h
    rw [ensure_views_cons, if_pos (h m (List.mem_cons_self m rest))]
    exact ih st (fun n hn => h n (List.mem_cons_of_mem m hn))

theorem ensure_views_nodup (names : List String) :
    ∀ (st : ViewState), st.registered.Nodup →
      (ensure_views names st).registered.Nodup := by
  induction names with
  | nil => intro st h; exact h
  | cons m rest ih =>
    intro st h
    rw [ensure_views_cons]
    apply ih
    by_cases hm : m ∈ st.registered
    · rw [if_pos hm]
      exact h
    · rw [if_neg hm]
      unfold ensure_view
      rw [if_neg hm]
      exact List.nodup_cons.mpr ⟨hm, h⟩

/-- C7: view registration is idempotent — a name is registered at most
once (the registry stays duplicate-free), a second `ensure_views` with
the same names leaves the whole state (including the log of performed
registrations, i.e. download checks) unchanged, and after `reset_views`
a subsequent `ensure_views` re-materializes every requested view. -/
theorem claim_C7_view_registry (names : List String) (st : ViewState) :
    (st.registered.Nodup → (ensure_views names st).registered.Nodup) ∧
    ensure_views names (ensure_views names st) = ensure_views names st ∧
    (ensure_views names (ensure_views names st)).registrations =
      (ensure_views names st).registrations ∧
    ∀ n ∈ names, n ∈ (ensure_views names (reset_views st)).registered := by
  have hfix : ensure_views names (ensure_views names st) =
      ensure_views names st :=
    ensure_views_fixed names (ensure_views names st)
      (ensure_views_registers names st)
  exact ⟨ensure_views_nodup names st, hfix,
    congrArg ViewState.registrations hfix,
    ensure_views_registers names (reset_views st)⟩

theorem claim_C7_view_registry_witness :
    (ensure_views ["cards", "sets"]
        { registered := [], registrations := [] }).registered.Nodup ∧
    ensure_views ["cards", "sets"]
        (ensure_views ["cards", "sets"]
          { registered := [], registrations := [] }) =
      ensure_views ["cards", "sets"]
        { registered := [], registrations := [] } ∧
    "cards" ∈ (ensure_views ["cards", "sets"]
        (reset_views { registered := [], registrations := [] })).registered :=
  ⟨(claim_C7_view_registry ["cards", "sets"]
      { registered := [], registrations := [] }).1 (by decide),
    (claim_C7_view_registry ["cards", "sets"]
      { registered := [], registrations := [] }).2.1,
    (claim_C7_view_registry ["cards", "sets"]
      { registered := [], registrations := [] }).2.2.2 "cards" (by decide)⟩

/-! ## C8: the column-adaptation plan -/

theorem lookup_type_some_mem (schema : List (String × String)) (col t : String)
    (h : lookup_type schema col = some t) : (col, t) ∈ schema := by
  unfold lookup_type at h
  rcases Option.map_eq_some'.mp h with ⟨p, hp, ht⟩
  have hmem := List.mem_of_find?_eq_some hp
  have hpred : p.1 = col := by simpa using List.find?_some hp
  have hpe : p = (col, t) := by
    rcases p with ⟨a, b⟩
    simp only at hpred ht
    rw [hpred, ht]
  rw [hpe] at hmem
  exact List.mem_reverse.mp hmem

/-- C8: a column is rewritten into an array exactly when it is on the
static per-view allow-list, or is a text column whose name ends in the
pluralizing suffix and is not on the block-list — in either case
restricted to columns that exist with VARCHAR type in the introspected
schema (so the block-list removes only heuristic candidates, never
static ones, and an absent or non-text column is never rewritten). -/
theorem claim_C8_array_plan (view_name : String)
    (schema : List (String × String)) (col : String) :
    col ∈ array_rewrite_cols view_name schema ↔
      ((col ∈ static_list_columns view_name ∨
        (ends_with_s col = true ∧ col ∉ ignored_columns)) ∧
       lookup_type schema col = some "VARCHAR") := by
  unfold array_rewrite_cols
  rw [List.mem_filter, List.mem_dedup]
  unfold array_candidates
  rw [List.mem_append]
  constructor
  · rintro ⟨hcand, hlook⟩
    have hlook2 : lookup_type schema col = some "VARCHAR" :=
      beq_iff_eq.mp hlook
    refine ⟨?_, hlook2⟩
    rcases hcand with hstatic | hheur
    · exact Or.inl hstatic
    · right
      unfold heuristic_candidates at hheur
      rcases List.mem_map.mp hheur with ⟨p, hpfilter, hp1⟩
      rcases List.mem_filter.mp hpfilter with ⟨_, hq⟩
      rw [Bool.and_eq_true, Bool.and_eq_true] at hq
      rcases hq with ⟨⟨_, hnotign⟩, hends⟩
      subst hp1
      refine ⟨hends, ?_⟩
      intro hmem
      rw [Bool.not_eq_eq_eq_not, Bool.not_true] at hnotign
      have : ignored_columns.contains p.1 = true := by
        simpa using hmem
      rw [this] at hnotign
      exact Bool.noConfusion hnotign
  · rintro ⟨hdisj, hlook⟩
    refine ⟨?_, beq_iff_eq.mpr hlook⟩
    rcases hdisj with hstatic | ⟨hends, hnotign⟩
    · exact Or.inl hstatic
    · right
      unfold heuristic_candidates
      have hmem : (col, "VARCHAR") ∈ schema := lookup_type_some_mem _ _ _ hlook
      apply List.mem_map.mpr
      refine ⟨(col, "VARCHAR"), List.mem_filter.mpr ⟨hmem, ?_⟩, rfl⟩
      rw [Bool.and_eq_true, Bool.and_eq_true]
      refine ⟨⟨by simp, ?_⟩, hends⟩
      rw [Bool.not_eq_eq_eq_not, Bool.not_true]
      simpa using hnotign

theorem claim_C8_array_plan_witness :
    ("colors" ∈ array_rewrite_cols "cards"
        [("uuid", "VARCHAR"), ("colors", "VARCHAR"), ("text", "VARCHAR"),
         ("legalities", "VARCHAR"), ("manaValue", "DOUBLE")] ↔
      (("colors" ∈ static_list_columns "cards" ∨
        (ends_with_s "colors" = true ∧ "colors" ∉ ignored_columns)) ∧
       lookup_type
          [("uuid", "VARCHAR"), ("colors", "VARCHAR"), ("text", "VARCHAR"),
           ("legalities", "VARCHAR"), ("manaValue", "DOUBLE")] "colors" =
         some "VARCHAR")) ∧
    ("legalities" ∈ array_rewrite_cols "cards"
        [("uuid", "VARCHAR"), ("colors", "VARCHAR"), ("text", "VARCHAR"),
         ("legalities", "VARCHAR"), ("manaValue", "DOUBLE")] ↔
      (("legalities" ∈ static_list_columns "cards" ∨
        (ends_with_s "legalities" = true ∧ "legalities" ∉ ignored_columns)) ∧
       lookup_type
          [("uuid", "VARCHAR"), ("colors", "VARCHAR"), ("text", "VARCHAR"),
           ("legalities", "VARCHAR"), ("manaValue", "DOUBLE")] "legalities" =
         some "VARCHAR")) :=
  ⟨claim_C8_array_plan "cards"
      [("uuid", "VARCHAR"), ("colors", "VARCHAR"), ("text", "VARCHAR"),
       ("legalities", "VARCHAR"), ("manaValue", "DOUBLE")] "colors",
    claim_C8_array_plan "cards"
      [("uuid", "VARCHAR"), ("colors", "VARCHAR"), ("text", "VARCHAR"),
       ("legalities", "VARCHAR"), ("manaValue", "DOUBLE")] "legalities"⟩

end Mtgjson
